import Mathlib

/-!
Verification of the cache-design repository: an `ICache` contract
(`get`, `set` with optional TTL, `delete`) implemented by a `RedisCache`
adapter that delegates each operation to an external Redis client
(src/unnamed/part_000), and a demo `App` (src/src/app.ts) exercising the
contract.

The backing key-value store itself (Redis, reached through the ioredis
client) is not part of the repository, so its command semantics are
modelled from the spec; the adapter methods and the application scenario
are embedded directly from the source.

Time is a logical clock (an integer number of seconds) passed to each
operation; an entry's expiry is stored as an absolute instant, matching
the spec's description of store-enforced TTL expiry.
-/

/-- A stored entry: the text value together with an optional absolute
expiry instant (in seconds). `none` means the entry never expires. -/
abbrev Entry := String × Option Int

/-- Modelled from the spec: the state of the external backing key-value
store ("the external key-value service actually holding cached data").
An association list from keys to entries; the adapter itself "holds no
local copy or index". -/
structure Store where
  entries : List (String × Entry)
  deriving Repr, DecidableEq

/-- Look up the entry currently recorded under `k`, expired or not. -/
def Store.lookup (s : Store) (k : String) : Option Entry :=
  (s.entries.find? (fun p => p.1 == k)).map (fun p => p.2)

/-- Remove every record under key `k`. -/
def Store.erase (s : Store) (k : String) : Store :=
  ⟨s.entries.filter (fun p => p.1 != k)⟩

/-- Record `e` under key `k`, replacing any previous record. -/
def Store.insert (s : Store) (k : String) (e : Entry) : Store :=
  ⟨(k, e) :: (s.erase k).entries⟩

/-- Modelled from the spec: the backing store's GET command at instant
`now` — "returns the stored value for `key`, or an explicit not-found
result if absent", where an entry with a TTL "must become inaccessible
via `get` after approximately `ttl` seconds have elapsed (expiry is
enforced by the backing store)". -/
def Store.getCmd (s : Store) (now : Int) (k : String) : Option String :=
  match s.lookup k with
  | none => none
  | some (v, none) => some v
  | some (v, some e) => if now < e then some v else none

/-- Modelled from the spec: the backing store's plain SET command —
"omitting `ttl` means the entry persists until explicitly deleted or
evicted by the store's own policy" (no expiry is attached). -/
def Store.setCmd (s : Store) (k v : String) : Store :=
  s.insert k (v, none)

/-- Modelled from the spec: the backing store's SET with expiry (`EX`)
command at instant `now` — the entry becomes inaccessible once `ttl`
seconds have elapsed, i.e. its absolute expiry is `now + ttl`. -/
def Store.setExCmd (s : Store) (now : Int) (k v : String) (ttl : Int) : Store :=
  s.insert k (v, some (now + ttl))

/-- Modelled from the spec: the backing store's DEL command — "removes
any entry under `key`; succeeds (no error) even if the key did not
exist". -/
def Store.delCmd (s : Store) (k : String) : Store :=
  s.erase k

/-- JavaScript truthiness of the optional `ttl : number` argument, as
tested by `if (ttl)` in the source: `undefined` and `0` are falsy, every
other integer is truthy. -/
def jsTruthy : Option Int → Bool
  | none => false
  | some t => t != 0

/-- Embeds `RedisCache.get` (src/unnamed/part_000, lines 22-24): a single
delegation to `client.get(key)`, returning the value or `null`; the
cache state is not modified. -/
def RedisCache.get (s : Store) (now : Int) (k : String) : Option String × Store :=
  (s.getCmd now k, s)

/-- Embeds `RedisCache.set` (src/unnamed/part_000, lines 26-32):
`if (ttl) client.set(key, value, 'EX', ttl) else client.set(key, value)`. -/
def RedisCache.set (s : Store) (now : Int) (k v : String) (ttl : Option Int) : Store :=
  if jsTruthy ttl then s.setExCmd now k v (ttl.getD 0) else s.setCmd k v

/-- Embeds `RedisCache.delete` (src/unnamed/part_000, lines 34-36): a
single delegation to `client.del(key)`. -/
def RedisCache.delete (s : Store) (k : String) : Store :=
  s.delCmd k

/-- A contract-level operation issued through the adapter, tagged with
the logical instant at which it is issued. -/
inductive Op where
  | getOp (now : Int) (k : String)
  | setOp (now : Int) (k v : String) (ttl : Option Int)
  | delOp (k : String)
  deriving Repr, DecidableEq

/-- The effect of one contract operation on the backing store, through
the adapter's methods. -/
def Op.apply (s : Store) : Op → Store
  | Op.getOp now k => (RedisCache.get s now k).2
  | Op.setOp now k v ttl => RedisCache.set s now k v ttl
  | Op.delOp k => RedisCache.delete s k

/-- The store state after a sequence of contract operations. -/
def applyOps (s : Store) (ops : List Op) : Store :=
  ops.foldl Op.apply s

/-- Whether an operation addresses key `k` with a mutation (`set` or
`delete` of that very key). -/
def Op.touches (op : Op) (k : String) : Bool :=
  match op with
  | Op.getOp _ _ => false
  | Op.setOp _ k2 _ _ => k2 == k
  | Op.delOp k2 => k2 == k

/-- A backing-store command as issued by the adapter over the wire:
each constructor records one ioredis client call appearing in
src/unnamed/part_000. -/
inductive Cmd where
  | getC (k : String)
  | setC (k v : String)
  | setExC (k v : String) (ttl : Int)
  | delC (k : String)
  deriving Repr, DecidableEq

/-- The backing commands issued by one adapter method call, transcribed
from the client calls in src/unnamed/part_000: `get` issues one GET,
`set` issues one SET (with `EX` when the ttl argument is truthy), and
`delete` issues one DEL. -/
def Op.cmds : Op → List Cmd
  | Op.getOp _ k => [Cmd.getC k]
  | Op.setOp _ k v ttl =>
      if jsTruthy ttl then [Cmd.setExC k v (ttl.getD 0)] else [Cmd.setC k v]
  | Op.delOp k => [Cmd.delC k]

/-- The state effect of one backing command at instant `now`. -/
def Cmd.applyCmd (s : Store) (now : Int) : Cmd → Store
  | Cmd.getC _ => s
  | Cmd.setC k v => s.setCmd k v
  | Cmd.setExC k v t => s.setExCmd now k v t
  | Cmd.delC k => s.erase k

/-- Modelled from the spec: running a list of backing commands against a
store whose command-level outcome is given by the oracle `ok` (a
command-level failure — "malformed arguments, store-side failure" —
"propagates as a failed result out of the corresponding contract call;
the adapter does not retry"). Execution stops at the first rejected
command and reports it as the failure. -/
def execCmds (ok : Cmd → Bool) (s : Store) (now : Int) : List Cmd → Except Cmd Store
  | [] => Except.ok s
  | c :: cs => if ok c then execCmds ok (c.applyCmd s now) now cs else Except.error c

/-- Renders an optional value the way `console.log` prints it: the value
itself, or `null` when absent. -/
def showValue : Option String → String
  | some v => v
  | none => "null"

/-- Embeds `App.run` (src/src/app.ts, lines 11-18): set `myKey` to
`myValue` with ttl 3600, get and log it, delete it, get and log again.
Returns the two console lines and the final store state. -/
def App.run (s : Store) (now : Int) : List String × Store :=
  let s1 := RedisCache.set s now "myKey" "myValue" (some 3600)
  let r1 := RedisCache.get s1 now "myKey"
  let s2 := RedisCache.delete r1.2 "myKey"
  let r2 := RedisCache.get s2 now "myKey"
  (["Cached Value: " ++ showValue r1.1, "Deleted Value: " ++ showValue r2.1], r2.2)

/-! ## Basic association-list lemmas -/

theorem Store.lookup_insert_self (s : Store) (k : String) (e : Entry) :
    (s.insert k e).lookup k = some e := by
  simp [Store.insert, Store.lookup, List.find?]

theorem Store.lookup_erase_self (s : Store) (k : String) :
    (s.erase k).lookup k = none := by
  obtain ⟨l⟩ := s
  induction l with
  | nil => rfl
  | cons a t ih =>
    by_cases h : a.1 = k
    · simp only [Store.erase, Store.lookup] at ih ⊢
      rw [List.filter_cons_of_neg (by simp [h])]
      exact ih
    · simp only [Store.erase, Store.lookup] at ih ⊢
      rw [List.filter_cons_of_pos (by simp [h]),
        List.find?_cons_of_neg (p := fun p : String × Entry => p.1 == k)
          (List.filter (fun p => p.1 != k) t) (by simp [h])]
      exact ih

theorem Store.lookup_erase_of_ne (s : Store) (k k2 : String) (h : k2 ≠ k) :
    (s.erase k).lookup k2 = s.lookup k2 := by
  obtain ⟨l⟩ := s
  simp only [Store.erase, Store.lookup]
  induction l with
  | nil => rfl
  | cons a t ih =>
    by_cases hk : a.1 = k
    · have hk2 : ¬ ((fun p : String × Entry => p.1 == k2) a = true) := by
        simp only [beq_iff_eq, hk]
        exact fun hh => h hh.symm
      rw [List.filter_cons_of_neg (by simp [hk]),
        List.find?_cons_of_neg (p := fun p : String × Entry => p.1 == k2) t hk2]
      exact ih
    · rw [List.filter_cons_of_pos (by simp [hk])]
      by_cases hk2 : a.1 = k2
      · rw [List.find?_cons_of_pos (p := fun p : String × Entry => p.1 == k2)
            (List.filter (fun p => p.1 != k) t) (by simp [hk2]),
          List.find?_cons_of_pos (p := fun p : String × Entry => p.1 == k2) t (by simp [hk2])]
      · rw [List.find?_cons_of_neg (p := fun p : String × Entry => p.1 == k2)
            (List.filter (fun p => p.1 != k) t) (by simp [hk2]),
          List.find?_cons_of_neg (p := fun p : String × Entry => p.1 == k2) t (by simp [hk2])]
        exact ih

theorem Store.lookup_insert_of_ne (s : Store) (k k2 : String) (e : Entry) (h : k2 ≠ k) :
    (s.insert k e).lookup k2 = s.lookup k2 := by
  have step : (s.insert k e).lookup k2 = (s.erase k).lookup k2 := by
    simp only [Store.insert, Store.lookup]
    rw [List.find?_cons_of_neg (p := fun p : String × Entry => p.1 == k2) (s.erase k).entries
      (by simp only [beq_iff_eq]; exact fun hh => h hh.symm)]
  rw [step, Store.lookup_erase_of_ne s k k2 h]

theorem Store.erase_erase (s : Store) (k : String) :
    (s.erase k).erase k = s.erase k := by
  obtain ⟨l⟩ := s
  simp only [Store.erase, Store.mk.injEq]
  induction l with
  | nil => rfl
  | cons a t ih =>
    by_cases h : a.1 = k
    · rw [List.filter_cons_of_neg (by simp [h])]
      exact ih
    · rw [List.filter_cons_of_pos (by simp [h]), List.filter_cons_of_pos (by simp [h])]
      exact congrArg (a :: ·) ih

/-! ## Frame lemmas for contract operations -/

theorem Op.lookup_apply_of_not_touches (s : Store) (k : String) (op : Op)
    (h : op.touches k = false) : (Op.apply s op).lookup k = s.lookup k := by
  cases op with
  | getOp now k2 => rfl
  | setOp now k2 v ttl =>
    have hne : k ≠ k2 := by
      simp only [Op.touches, beq_eq_false_iff_ne] at h
      exact fun hh => h hh.symm
    simp only [Op.apply, RedisCache.set]
    by_cases ht : jsTruthy ttl = true
    · rw [if_pos ht]
      exact Store.lookup_insert_of_ne s k2 k _ hne
    · rw [if_neg ht]
      exact Store.lookup_insert_of_ne s k2 k _ hne
  | delOp k2 =>
    have hne : k ≠ k2 := by
      simp only [Op.touches, beq_eq_false_iff_ne] at h
      exact fun hh => h hh.symm
    exact Store.lookup_erase_of_ne s k2 k hne

theorem lookup_applyOps_of_not_touches (ops : List Op) (s : Store) (k : String)
    (h : ∀ op ∈ ops, op.touches k = false) :
    (applyOps s ops).lookup k = s.lookup k := by
  induction ops generalizing s with
  | nil => rfl
  | cons op rest ih =>
    have h1 := h op (List.mem_cons_self op rest)
    have h2 : ∀ o ∈ rest, o.touches k = false := fun o ho => h o (List.mem_cons_of_mem _ ho)
    calc (applyOps s (op :: rest)).lookup k
        = (applyOps (Op.apply s op) rest).lookup k := rfl
      _ = (Op.apply s op).lookup k := ih (Op.apply s op) h2
      _ = s.lookup k := Op.lookup_apply_of_not_touches s k op h1

/-! ## Claim theorems -/

/-- C1: for every key `k` and value `v`, after `set(k, v)` with no ttl, every
subsequent `get(k)` returns `v` (a found result) until an explicit `delete(k)`,
with no intervening `set` to `k`: any sequence of operations not touching `k`
preserves the stored value, and it never expires. -/
theorem RedisCache.set_no_ttl_persists_until_delete (s : Store) (now t : Int)
    (k v : String) (ops : List Op) (h : ∀ op ∈ ops, op.touches k = false) :
    (RedisCache.get (applyOps (RedisCache.set s now k v none) ops) t k).1 = some v := by
  have hl : (applyOps (RedisCache.set s now k v none) ops).lookup k = some (v, none) := by
    rw [lookup_applyOps_of_not_touches ops _ k h,
      show RedisCache.set s now k v none = s.setCmd k v from rfl]
    exact Store.lookup_insert_self s k (v, none)
  simp [RedisCache.get, Store.getCmd, hl]

/-- Witness for C1: a concrete run with interleaved operations on another key. -/
theorem RedisCache.set_no_ttl_persists_until_delete_witness :
    (∀ op ∈ [Op.setOp 1 "other" "w" (some 5), Op.delOp "other", Op.getOp 2 "k"],
        Op.touches op "k" = false) ∧
    (RedisCache.get
        (applyOps (RedisCache.set ⟨[]⟩ 0 "k" "v" none)
          [Op.setOp 1 "other" "w" (some 5), Op.delOp "other", Op.getOp 2 "k"]) 9 "k").1
      = some "v" :=
  ⟨by decide, RedisCache.set_no_ttl_persists_until_delete ⟨[]⟩ 0 9 "k" "v" _ (by decide)⟩

/-- C2: with a positive ttl, `set(k, v, ttl)` stores the entry with expiry
`now + ttl`; `get(k)` immediately afterwards returns `v`, and at any instant
more than `ttl` seconds after the set, `get(k)` is not found. -/
theorem RedisCache.set_ttl_expires (s : Store) (now : Int) (k v : String) (ttl : Int)
    (hpos : 0 < ttl) :
    (RedisCache.get (RedisCache.set s now k v (some ttl)) now k).1 = some v ∧
    ∀ t : Int, now + ttl < t →
      (RedisCache.get (RedisCache.set s now k v (some ttl)) t k).1 = none := by
  have htr : jsTruthy (some ttl) = true := by
    simp only [jsTruthy, bne_iff_ne, ne_eq, decide_eq_true_eq]
    omega
  have hset : (RedisCache.set s now k v (some ttl)).lookup k
      = some (v, some (now + ttl)) := by
    simp [RedisCache.set, htr, Store.setExCmd, Option.getD, Store.lookup_insert_self]
  constructor
  · have hlt : now < now + ttl := by omega
    simp [RedisCache.get, Store.getCmd, hset, hlt]
  · intro t ht
    have hge : ¬ (t < now + ttl) := by omega
    simp [RedisCache.get, Store.getCmd, hset, hge]

/-- Witness for C2 at ttl 1: found at the set instant, gone at instant 2. -/
theorem RedisCache.set_ttl_expires_witness :
    (0 : Int) < 1 ∧
    ((RedisCache.get (RedisCache.set ⟨[]⟩ 0 "k" "v" (some 1)) 0 "k").1 = some "v" ∧
      (RedisCache.get (RedisCache.set ⟨[]⟩ 0 "k" "v" (some 1)) 2 "k").1 = none) :=
  ⟨by decide,
    (RedisCache.set_ttl_expires ⟨[]⟩ 0 "k" "v" 1 (by decide)).1,
    (RedisCache.set_ttl_expires ⟨[]⟩ 0 "k" "v" 1 (by decide)).2 2 (by decide)⟩

/-- C3: `delete(k)` immediately followed by `get(k)` observes absence, whatever
the prior state — no stale read. -/
theorem RedisCache.delete_then_get_not_found (s : Store) (t : Int) (k : String) :
    (RedisCache.get (RedisCache.delete s k) t k).1 = none := by
  have h := Store.lookup_erase_self s k
  simp [RedisCache.get, RedisCache.delete, Store.delCmd, Store.getCmd, h]

/-- C4: on a key with no current entry, `get(k)` returns the explicit not-found
result, and the backing GET command completes without error. -/
theorem RedisCache.get_missing_not_found (s : Store) (now : Int) (k : String)
    (h : s.lookup k = none) :
    (RedisCache.get s now k).1 = none ∧
    ∀ ok : Cmd → Bool, ok (Cmd.getC k) = true →
      execCmds ok s now (Op.getOp now k).cmds = Except.ok s := by
  constructor
  · simp [RedisCache.get, Store.getCmd, h]
  · intro ok hok
    simp [Op.cmds, execCmds, hok, Cmd.applyCmd]

/-- Witness for C4 on the empty store. -/
theorem RedisCache.get_missing_not_found_witness :
    Store.lookup ⟨[]⟩ "k" = none ∧
    ((RedisCache.get ⟨[]⟩ 0 "k").1 = none ∧
      execCmds (fun _ => true) ⟨[]⟩ 0 (Op.getOp 0 "k").cmds = Except.ok ⟨[]⟩) :=
  ⟨rfl,
    (RedisCache.get_missing_not_found ⟨[]⟩ 0 "k" rfl).1,
    (RedisCache.get_missing_not_found ⟨[]⟩ 0 "k" rfl).2 (fun _ => true) rfl⟩

/-- C5: `delete(k)` is idempotent on the store state, and the backing DEL
command succeeds (no error) both on the first and on the second call, whether
or not an entry exists under `k`. -/
theorem RedisCache.delete_idempotent (s : Store) (now : Int) (k : String)
    (ok : Cmd → Bool) (hok : ok (Cmd.delC k) = true) :
    RedisCache.delete (RedisCache.delete s k) k = RedisCache.delete s k ∧
    execCmds ok s now (Op.delOp k).cmds = Except.ok (RedisCache.delete s k) ∧
    execCmds ok (RedisCache.delete s k) now (Op.delOp k).cmds
      = Except.ok (RedisCache.delete (RedisCache.delete s k) k) := by
  refine ⟨Store.erase_erase s k, ?_, ?_⟩
  · simp [Op.cmds, execCmds, hok, Cmd.applyCmd, RedisCache.delete, Store.delCmd]
  · simp [Op.cmds, execCmds, hok, Cmd.applyCmd, RedisCache.delete, Store.delCmd]

/-- Witness for C5 on the empty store, where no entry exists under the key. -/
theorem RedisCache.delete_idempotent_witness :
    (fun _ : Cmd => true) (Cmd.delC "k") = true ∧
    (RedisCache.delete (RedisCache.delete ⟨[]⟩ "k") "k" = RedisCache.delete ⟨[]⟩ "k" ∧
      execCmds (fun _ => true) ⟨[]⟩ 0 (Op.delOp "k").cmds
        = Except.ok (RedisCache.delete ⟨[]⟩ "k") ∧
      execCmds (fun _ => true) (RedisCache.delete ⟨[]⟩ "k") 0 (Op.delOp "k").cmds
        = Except.ok (RedisCache.delete (RedisCache.delete ⟨[]⟩ "k") "k")) :=
  ⟨rfl, RedisCache.delete_idempotent ⟨[]⟩ 0 "k" (fun _ => true) rfl⟩

/-- C6: every contract call issues its backing command exactly once — the
adapter never retries — and a command-level failure propagates as the failed
result of that call. -/
theorem RedisCache.no_retry_failure_propagates (op : Op) (ok : Cmd → Bool)
    (s : Store) (now : Int) :
    op.cmds.length = 1 ∧
    ∀ c ∈ op.cmds, ok c = false → execCmds ok s now op.cmds = Except.error c := by
  have hc : ∃ c0, op.cmds = [c0] := by
    cases op with
    | getOp now k => exact ⟨_, rfl⟩
    | setOp now k v ttl =>
      by_cases ht : jsTruthy ttl = true
      · exact ⟨Cmd.setExC k v (ttl.getD 0), by simp [Op.cmds, ht]⟩
      · exact ⟨Cmd.setC k v, by simp [Op.cmds, ht]⟩
    | delOp k => exact ⟨_, rfl⟩
  obtain ⟨c0, hc0⟩ := hc
  rw [hc0]
  refine ⟨rfl, ?_⟩
  intro c hmem hfail
  have : c = c0 := List.mem_singleton.mp hmem
  subst this
  simp [execCmds, hfail]

/-- Witness for C6: a rejected DEL command is attempted once and the failure
propagates out of the delete call. -/
theorem RedisCache.no_retry_failure_propagates_witness :
    (Op.delOp "k").cmds.length = 1 ∧
    execCmds (fun _ => false) ⟨[]⟩ 0 (Op.delOp "k").cmds = Except.error (Cmd.delC "k") :=
  ⟨(RedisCache.no_retry_failure_propagates (Op.delOp "k") (fun _ => false) ⟨[]⟩ 0).1,
    (RedisCache.no_retry_failure_propagates (Op.delOp "k") (fun _ => false) ⟨[]⟩ 0).2
      (Cmd.delC "k") (by decide) rfl⟩

/-- C7: from a state with no entry for `myKey`, the `App.run` sequence logs
`Cached Value: myValue` and then `Deleted Value: null`. -/
theorem App.run_scenario (s : Store) (now : Int) (_h : s.lookup "myKey" = none) :
    (App.run s now).1 = ["Cached Value: myValue", "Deleted Value: null"] := by
  have htr : jsTruthy (some 3600) = true := by decide
  have h1 : (RedisCache.set s now "myKey" "myValue" (some 3600)).lookup "myKey"
      = some ("myValue", some (now + 3600)) := by
    simp [RedisCache.set, htr, Store.setExCmd, Option.getD, Store.lookup_insert_self]
  have hlt : now < now + 3600 := by omega
  simp [App.run, RedisCache.get, RedisCache.delete, Store.delCmd, Store.getCmd, h1, hlt,
    Store.lookup_erase_self, showValue]

/-- Witness for C7 on the empty store at instant 0. -/
theorem App.run_scenario_witness :
    Store.lookup ⟨[]⟩ "myKey" = none ∧
    (App.run ⟨[]⟩ 0).1 = ["Cached Value: myValue", "Deleted Value: null"] :=
  ⟨rfl, App.run_scenario ⟨[]⟩ 0 rfl⟩

/-- C8: `set` and `delete` on key `k` leave the entry under any other key `k2`
— value and expiry alike — unchanged. -/
theorem RedisCache.frame_other_keys (s : Store) (now : Int) (k v : String)
    (ttl : Option Int) (k2 : String) (h : k2 ≠ k) :
    (RedisCache.set s now k v ttl).lookup k2 = s.lookup k2 ∧
    (RedisCache.delete s k).lookup k2 = s.lookup k2 := by
  constructor
  · simp only [RedisCache.set]
    by_cases ht : jsTruthy ttl = true
    · rw [if_pos ht]
      exact Store.lookup_insert_of_ne s k k2 _ h
    · rw [if_neg ht]
      exact Store.lookup_insert_of_ne s k k2 _ h
  · exact Store.lookup_erase_of_ne s k k2 h

/-- Witness for C8: an entry under `b` survives a set and a delete on `a`. -/
theorem RedisCache.frame_other_keys_witness :
    ("b" : String) ≠ "a" ∧
    ((RedisCache.set ⟨[("b", ("x", some 9))]⟩ 0 "a" "v" (some 3)).lookup "b"
        = Store.lookup ⟨[("b", ("x", some 9))]⟩ "b" ∧
      (RedisCache.delete ⟨[("b", ("x", some 9))]⟩ "a").lookup "b"
        = Store.lookup ⟨[("b", ("x", some 9))]⟩ "b") :=
  ⟨by decide, RedisCache.frame_other_keys ⟨[("b", ("x", some 9))]⟩ 0 "a" "v" (some 3) "b"
    (by decide)⟩

/-- C9: `set(k, v, 0)` — ttl explicitly zero — is the very same operation as
`set(k, v)` with ttl omitted: the JavaScript truthiness test sends both to the
plain SET branch, so no expiry is attached. -/
theorem RedisCache.set_ttl_zero_eq_omitted (s : Store) (now : Int) (k v : String) :
    RedisCache.set s now k v (some 0) = RedisCache.set s now k v none ∧
    (RedisCache.set s now k v (some 0)).lookup k = some (v, none) :=
  ⟨rfl, Store.lookup_insert_self s k (v, none)⟩

/-- C10: `get` is a pure read — it returns the store state unchanged. -/
theorem RedisCache.get_pure (s : Store) (now : Int) (k : String) :
    (RedisCache.get s now k).2 = s :=
  rfl
